import Mathlib

/-!
Shallow embedding of the `LangChainYandexGPT` adapter (src/index.mjs) and
verification of its history-translation state machine, HTTP handling and
operation poller.

The translation `parseChatHistory` is a single left-to-right pass over the
input messages threading a correlation state (pending tool results and the
number of tool results still awaited), emitting wire entries and possibly
failing with one of the two errors the source throws.
-/

namespace YandexGPT

/-- Result of `message._getType()` in the source: the langchain role tag. -/
inductive Role
  | human
  | tool
  | ai
  | system
  | unknownRole (tag : String)
deriving DecidableEq, Repr

/-- The shape of a message's `content` property: a plain string, an array of
text parts (the source reads `part.text` of each element), or any other
JavaScript value (number, object, ...). -/
inductive Content
  | str (s : String)
  | parts (ps : List String)
  | other
deriving DecidableEq, Repr

/-- A tool call carried on an `ai` message: `{name, args}`; `args` is an
opaque structured value carried through translation unchanged. -/
structure ToolCall where
  name : String
  args : String
deriving DecidableEq, Repr

/-- An input message. `content = none` models a message object with no
`content` property (the source guards the whole switch with
`'content' in message`). `kwName` is `additional_kwargs.name`, `name` is
`message.name`; both may be absent. -/
structure Message where
  role : Role
  content : Option Content
  tool_calls : List ToolCall
  kwName : Option String
  name : Option String
deriving DecidableEq, Repr

/-- Wire roles used by the Yandex completion API message list. -/
inductive WireRole
  | user
  | assistant
  | system
deriving DecidableEq, Repr

/-- The `functionCall` object inside a wire `toolCallList` item. -/
structure FunctionCall where
  name : String
  arguments : String
deriving DecidableEq, Repr

/-- One item of a wire `toolCallList.toolCalls` array. -/
structure WireToolCall where
  functionCall : FunctionCall
deriving DecidableEq, Repr

/-- The `functionResult` object inside a wire `toolResultList` item; its
`name` is `additional_kwargs.name ?? message.name`, which may be absent. -/
structure FunctionResult where
  name : Option String
  content : String
deriving DecidableEq, Repr

/-- One item of a wire `toolResultList.toolResults` array. -/
structure WireToolResult where
  functionResult : FunctionResult
deriving DecidableEq, Repr

/-- One entry of the translated wire message list. Each optional field
models the presence or absence of the corresponding property on the pushed
JavaScript object. -/
structure WireEntry where
  role : WireRole
  text : Option String
  toolCallList : Option (List WireToolCall)
  toolResultList : Option (List WireToolResult)
deriving DecidableEq, Repr

/-- One element of the translator's `pendingToolResults` buffer. -/
structure PendingResult where
  name : Option String
  content : String
deriving DecidableEq, Repr

/-- The correlation state threaded through the single pass. -/
structure TransState where
  pendingToolResults : List PendingResult
  awaitingToolCallsCount : Nat
deriving DecidableEq, Repr

/-- The state at the start of a translation pass (and after a flush). -/
def initState : TransState := ⟨[], 0⟩

/-- The two errors `parseChatHistory` throws: the non-string-content error
and the end-of-pass mismatch error. -/
inductive TransError
  | unsupportedContent
  | correlationMismatch
deriving DecidableEq, Repr

/-- The tool identity recorded for a `tool` message:
`message.additional_kwargs.name ?? message.name`. -/
def toolResultName (m : Message) : Option String :=
  match m.kwName with
  | some n => some n
  | none => m.name

/-- The reshaping of one langchain tool call into the wire shape. -/
def wrapCall (t : ToolCall) : WireToolCall :=
  ⟨⟨t.name, t.args⟩⟩

/-- The reshaping of one buffered result into the wire shape at flush. -/
def wrapResult (r : PendingResult) : WireToolResult :=
  ⟨⟨r.name, r.content⟩⟩

/-- A wire entry carrying only a `text` payload. -/
def textEntry (r : WireRole) (s : String) : WireEntry :=
  ⟨r, some s, none, none⟩

/-- The assistant entry emitted for an `ai` message carrying tool calls. -/
def callListEntry (ts : List ToolCall) : WireEntry :=
  ⟨.assistant, none, some (ts.map wrapCall), none⟩

/-- The assistant entry emitted when the pending results are flushed. -/
def resultListEntry (rs : List PendingResult) : WireEntry :=
  ⟨.assistant, none, none, some (rs.map wrapResult)⟩

/-- The assistant entry emitted for an `ai` message with neither tool calls
nor string content: it has no payload at all. -/
def bareAssistantEntry : WireEntry :=
  ⟨.assistant, none, none, none⟩

/-- One iteration of the loop body of `parseChatHistory`: processes a single
message in state `st`, returning the wire entries it pushes and the next
state, or the thrown error. Mirrors the `switch` in src/index.mjs lines
12-113 case by case. -/
def processMessage (m : Message) (st : TransState) :
    Except TransError (List WireEntry × TransState) :=
  match m.content with
  | none => .ok ([], st)
  | some c =>
    match m.role with
    | .human =>
      match c with
      | .str s => .ok ([textEntry .user s], st)
      | .parts ps => .ok (ps.map (textEntry .user), st)
      | .other => .error .unsupportedContent
    | .tool =>
      match c with
      | .str s =>
        let pending := st.pendingToolResults ++ [⟨toolResultName m, s⟩]
        if st.awaitingToolCallsCount > 0 ∧
            pending.length = st.awaitingToolCallsCount then
          .ok ([resultListEntry pending], ⟨[], 0⟩)
        else
          .ok ([], ⟨pending, st.awaitingToolCallsCount⟩)
      | _ => .error .unsupportedContent
    | .ai =>
      match m.tool_calls with
      | t :: ts =>
        .ok ([callListEntry (t :: ts)],
          ⟨st.pendingToolResults, (t :: ts).length⟩)
      | [] =>
        match c with
        | .str s => .ok ([textEntry .assistant s], st)
        | _ => .ok ([bareAssistantEntry], st)
    | .system =>
      match c with
      | .str s => .ok ([textEntry .system s], st)
      | .parts ps => .ok (ps.map (textEntry .system), st)
      | .other => .error .unsupportedContent
    | .unknownRole _ => .ok ([], st)

/-- The whole loop of `parseChatHistory`, from an arbitrary starting state:
processes the messages left to right, concatenating the pushed entries. -/
def processAll : List Message → TransState →
    Except TransError (List WireEntry × TransState)
  | [], st => .ok ([], st)
  | m :: rest, st =>
    match processMessage m st with
    | .error e => .error e
    | .ok (es, st') =>
      match processAll rest st' with
      | .error e => .error e
      | .ok (es', st'') => .ok (es ++ es', st'')

/-- The translation `LangChainYandexGPT.parseChatHistory`: run the pass from
the empty state, then apply the end-of-pass mismatch check of src/index.mjs
lines 116-118. -/
def parseChatHistory (history : List Message) :
    Except TransError (List WireEntry) :=
  match processAll history initState with
  | .error e => .error e
  | .ok (es, st) =>
    if st.pendingToolResults.length > 0 ∨ st.awaitingToolCallsCount > 0 then
      .error .correlationMismatch
    else
      .ok es

instance {ε α : Type} [DecidableEq ε] [DecidableEq α] :
    DecidableEq (Except ε α) := fun a b =>
  match a, b with
  | .error e₁, .error e₂ =>
    if h : e₁ = e₂ then .isTrue (by rw [h]) else
      .isFalse (by intro hc; cases hc; exact h rfl)
  | .error _, .ok _ => .isFalse (by intro hc; cases hc)
  | .ok _, .error _ => .isFalse (by intro hc; cases hc)
  | .ok v₁, .ok v₂ =>
    if h : v₁ = v₂ then .isTrue (by rw [h]) else
      .isFalse (by intro hc; cases hc; exact h rfl)

/-- A human message with plain string content. -/
def mkHuman (s : String) : Message :=
  ⟨.human, some (.str s), [], none, none⟩

/-- An ai message with string content and the given tool calls. -/
def mkAI (s : String) (ts : List ToolCall) : Message :=
  ⟨.ai, some (.str s), ts, none, none⟩

/-- A tool message with its identity in `additional_kwargs.name`. -/
def mkTool (nm : String) (s : String) : Message :=
  ⟨.tool, some (.str s), [], some nm, none⟩

/-- The parsed JSON body of a response, as the poller reads it: the `done`
flag it inspects plus an opaque payload for the rest of the body. -/
structure OpJson where
  done : Bool
  payload : String
deriving DecidableEq, Repr

/-- An HTTP response as `fetch` resolves it: the success flag `ok`, the
numeric `status`, the `statusText`, and the parsed JSON body. -/
structure HttpResponse where
  ok : Bool
  status : Nat
  statusText : String
  json : OpJson
deriving DecidableEq, Repr

/-- The error `completion` and `asyncCompletion` throw on a non-success
HTTP status, carrying the status code and status text. -/
inductive FetchError
  | httpError (status : Nat) (statusText : String)
deriving DecidableEq, Repr

/-- Response handling of `completion` (src/index.mjs lines 133-136): throw
on `!response.ok` with status and statusText, else return the body. -/
def completion (resp : HttpResponse) : Except FetchError OpJson :=
  if resp.ok then .ok resp.json
  else .error (.httpError resp.status resp.statusText)

/-- Response handling of `asyncCompletion` (src/index.mjs lines 149-152),
identical to `completion` up to the URL and message string. -/
def asyncCompletion (resp : HttpResponse) : Except FetchError OpJson :=
  if resp.ok then .ok resp.json
  else .error (.httpError resp.status resp.statusText)

/-- What one invocation of `checkStatus` observes: either the `fetch` or
`response.json()` call threw, or a response arrived. -/
inductive CheckOutcome
  | throws
  | response (r : HttpResponse)
deriving DecidableEq, Repr

/-- What a `checkStatus` chain has done after consuming a finite trace of
check outcomes: resolved with a body, rejected, or still rescheduling
(the trace ran out with the poller still going). -/
inductive PollOutcome
  | resolved (r : OpJson)
  | rejected
  | stillPolling
deriving DecidableEq, Repr

/-- The recursive behaviour of `checkStatus` (src/index.mjs lines 155-179)
over a finite trace of outcomes, one per invocation: a thrown error
rejects; otherwise the parsed body's `done` flag alone decides between
resolving and rescheduling another `checkStatus` — the HTTP status is never
inspected. -/
def checkStatusRun : List CheckOutcome → PollOutcome
  | [] => .stillPolling
  | .throws :: _ => .rejected
  | .response r :: rest =>
    if r.json.done then .resolved r.json else checkStatusRun rest

/-- The number of `checkStatus` invocations (equivalently, the depth of the
recursive `setTimeout` rescheduling chain, each level holding a live Promise
with its resolve/reject continuations) consumed on a finite trace. -/
def checkStatusCalls : List CheckOutcome → Nat
  | [] => 0
  | .throws :: _ => 1
  | .response r :: rest =>
    if r.json.done then 1 else 1 + checkStatusCalls rest

/-- One `checkStatus` invocation's decision on the response it received. -/
inductive StepAction
  | resolve (r : OpJson)
  | reschedule
deriving DecidableEq, Repr

/-- The decision a single `checkStatus` invocation takes on a response:
resolve when the parsed body says `done`, otherwise schedule another check.
Nothing but the parsed JSON body is consulted. -/
def checkStatusStep (resp : HttpResponse) : StepAction :=
  if resp.json.done then .resolve resp.json else .reschedule

/-- The `finish_reason` computation of `_generate` (src/index.mjs line 300):
`params.messages.find(m => typeof m.toolResultList === 'object')` is truthy
exactly when some translated entry carries a `toolResultList` payload, and
then the literal string is `'tool_calls'`. -/
def finishReason (msgs : List WireEntry) : Option String :=
  match msgs.find? (fun m => m.toolResultList.isSome) with
  | some _ => some "tool_calls"
  | none => none

/-- How many of the three payload variants a wire entry carries. -/
def payloadCount (e : WireEntry) : Nat :=
  (if e.text.isSome then 1 else 0) +
    (if e.toolCallList.isSome then 1 else 0) +
    (if e.toolResultList.isSome then 1 else 0)

/-- The messages on which the pass throws the non-string-content error: a
`human` or `system` message whose content is neither a string nor an array
of parts, or a `tool` message whose content is not a string. Messages
without a `content` property, `ai` messages and unknown roles never throw
it. -/
def badContent (m : Message) : Bool :=
  match m.content with
  | none => false
  | some c =>
    match m.role with
    | .human => match c with | .other => true | _ => false
    | .system => match c with | .other => true | _ => false
    | .tool => match c with | .str _ => false | _ => true
    | _ => false

/-- The side condition relating a tool message to the pair
(recorded name, string content) the translator buffers for it. -/
def toolShape (t : Message) (r : Option String × String) : Prop :=
  t.role = .tool ∧ t.content = some (.str r.2) ∧ toolResultName t = r.1

/-! Basic sanity checks of the embedding on the spec's concrete scenario. -/

example :
    parseChatHistory [⟨.system, some (.str "Use tool get_weather"), [], none, none⟩,
      mkHuman "Weather in Moscow?",
      mkAI "" [⟨"get_weather", "Moscow"⟩],
      mkTool "get_weather" "Sunny, 22C"] =
    .ok [textEntry .system "Use tool get_weather",
      textEntry .user "Weather in Moscow?",
      callListEntry [⟨"get_weather", "Moscow"⟩],
      resultListEntry [⟨some "get_weather", "Sunny, 22C"⟩]] := by decide

example :
    parseChatHistory [mkAI "" [⟨"f", "a"⟩]] = .error .correlationMismatch := by
  decide

example :
    parseChatHistory [mkTool "f" "r"] = .error .correlationMismatch := by
  decide

/-! Helper lemmas about the pass. -/

/-- Unfolding the pass on an empty history. -/
theorem processAll_nil (st : TransState) :
    processAll [] st = .ok ([], st) := rfl

/-- Unfolding one iteration of the pass. -/
theorem processAll_cons (m : Message) (rest : List Message) (st : TransState) :
    processAll (m :: rest) st =
      match processMessage m st with
      | .error e => .error e
      | .ok (es, st') =>
        match processAll rest st' with
        | .error e => .error e
        | .ok (es', st'') => .ok (es ++ es', st'') := rfl

/-- Processing a concatenation is processing the pieces in sequence. -/
theorem processAll_append (xs ys : List Message) (st : TransState) :
    processAll (xs ++ ys) st =
      match processAll xs st with
      | .error e => .error e
      | .ok (es, st') =>
        match processAll ys st' with
        | .error e => .error e
        | .ok (es', st'') => .ok (es ++ es', st'') := by
  induction xs generalizing st with
  | nil =>
    cases hy : processAll ys st with
    | error e => simp [processAll_nil, hy]
    | ok p => obtain ⟨es', st''⟩ := p; simp [processAll_nil, hy]
  | cons m rest ih =>
    cases hm : processMessage m st with
    | error e => simp [processAll_cons, hm]
    | ok p =>
      obtain ⟨es, st'⟩ := p
      cases hr : processAll rest st' with
      | error e => simp [processAll_cons, hm, ih st', hr]
      | ok q =>
        obtain ⟨es₂, st₂⟩ := q
        cases hy : processAll ys st₂ with
        | error e => simp [processAll_cons, hm, ih st', hr, hy]
        | ok r =>
          obtain ⟨es₃, st₃⟩ := r
          simp [processAll_cons, hm, ih st', hr, hy]

/-- The loop body only ever throws the non-string-content error, and it
does so exactly on messages with bad content, whatever the state. -/
theorem processMessage_error_uce (m : Message) (st : TransState)
    (e : TransError) (h : processMessage m st = .error e) :
    e = .unsupportedContent ∧ badContent m = true := by
  obtain ⟨role, content, tcs, kw, nm⟩ := m
  cases content with
  | none => cases h
  | some c =>
    cases role with
    | human =>
      cases c with
      | str s => cases h
      | parts ps => cases h
      | other => cases h; exact ⟨rfl, rfl⟩
    | tool =>
      cases c with
      | str s =>
        simp only [processMessage] at h
        split at h <;> cases h
      | parts ps => cases h; exact ⟨rfl, rfl⟩
      | other => cases h; exact ⟨rfl, rfl⟩
    | ai =>
      cases tcs with
      | nil => cases c <;> cases h
      | cons t ts => cases h
    | system =>
      cases c with
      | str s => cases h
      | parts ps => cases h
      | other => cases h; exact ⟨rfl, rfl⟩
    | unknownRole tag => cases h

/-- On a message with bad content the loop body throws the non-string
content error, whatever the state. -/
theorem badContent_throws (m : Message) (st : TransState)
    (hb : badContent m = true) :
    processMessage m st = .error .unsupportedContent := by
  obtain ⟨role, content, tcs, kw, nm⟩ := m
  cases content with
  | none => cases hb
  | some c =>
    cases role with
    | human => cases c with
      | str s => cases hb
      | parts ps => cases hb
      | other => rfl
    | tool => cases c with
      | str s => cases hb
      | parts ps => rfl
      | other => rfl
    | ai => cases hb
    | system => cases c with
      | str s => cases hb
      | parts ps => cases hb
      | other => rfl
    | unknownRole tag => cases hb

/-- On a message without bad content the loop body does not throw, whatever
the state. -/
theorem not_badContent_ok (m : Message) (st : TransState)
    (hb : badContent m = false) :
    ∃ p, processMessage m st = .ok p := by
  cases hp : processMessage m st with
  | error e =>
    have := (processMessage_error_uce m st e hp).2
    rw [hb] at this
    cases this
  | ok p => exact ⟨p, rfl⟩

/-- The pass as a whole only ever throws the non-string-content error; the
mismatch error comes only from the end-of-pass check. -/
theorem processAll_error_uce (h : List Message) :
    ∀ (st : TransState) (e : TransError),
      processAll h st = .error e → e = .unsupportedContent := by
  induction h with
  | nil => intro st e he; cases he
  | cons m rest ih =>
    intro st e he
    rw [processAll_cons] at he
    cases hm : processMessage m st with
    | error e₁ =>
      simp only [hm] at he
      cases he
      exact (processMessage_error_uce m st _ hm).1
    | ok p =>
      obtain ⟨es, st'⟩ := p
      simp only [hm] at he
      cases hr : processAll rest st' with
      | error e₁ =>
        simp only [hr] at he
        cases he
        exact ih st' _ hr
      | ok q =>
        obtain ⟨es', st''⟩ := q
        simp only [hr] at he
        cases he

/-- The pass throws the non-string-content error exactly when some message
of the history has bad content, whatever the starting state. -/
theorem processAll_uce_iff (h : List Message) :
    ∀ st : TransState,
      processAll h st = .error .unsupportedContent ↔
        ∃ m ∈ h, badContent m = true := by
  induction h with
  | nil => intro st; simp [processAll_nil]
  | cons m rest ih =>
    intro st
    cases hb : badContent m with
    | true =>
      constructor
      · intro _; exact ⟨m, List.mem_cons_self m rest, hb⟩
      · intro _
        rw [processAll_cons, badContent_throws m st hb]
    | false =>
      obtain ⟨⟨es, st'⟩, hp⟩ := not_badContent_ok m st hb
      have hstep : processAll (m :: rest) st = .error .unsupportedContent ↔
          processAll rest st' = .error .unsupportedContent := by
        rw [processAll_cons]
        simp only [hp]
        cases hr : processAll rest st' with
        | error e =>
          have he := processAll_error_uce rest st' e hr
          subst he
          simp
        | ok q => obtain ⟨es', st''⟩ := q; simp
      rw [hstep, ih st']
      constructor
      · rintro ⟨m', hm', hbm'⟩; exact ⟨m', List.mem_cons_of_mem m hm', hbm'⟩
      · rintro ⟨m', hm', hbm'⟩
        rcases List.mem_cons.mp hm' with heq | hmem
        · subst heq; rw [hb] at hbm'; cases hbm'
        · exact ⟨m', hmem, hbm'⟩

/-! Claim C3: when translation fails with the correlation error. -/

/-- C3 counterexample: the history [tool r0, ai with two calls, tool r1]
contains a tool message (r0) with no preceding outstanding tool call, yet
translation succeeds — the stray result is buffered and absorbed into the
later window's flush — contradicting the claim that every such history
fails with HistoryCorrelationError by end of pass. -/
theorem parse_stray_result_absorbed :
    parseChatHistory [mkTool "t0" "r0", mkAI "" [⟨"a", "x"⟩, ⟨"b", "y"⟩],
      mkTool "t1" "r1"] =
    .ok [callListEntry [⟨"a", "x"⟩, ⟨"b", "y"⟩],
      resultListEntry [⟨some "t0", "r0"⟩, ⟨some "t1", "r1"⟩]] := by decide

/-- C3 (amended): translation fails with the correlation error exactly when
the pass itself completes (so no unsupported-content error was thrown) and
the final state has a non-empty pending buffer or a non-zero awaiting
count; a stray or missing tool result need not fail when a later flush
absorbs it. -/
theorem parse_correlation_error_iff (h : List Message) :
    parseChatHistory h = .error .correlationMismatch ↔
      ∃ es st, processAll h initState = .ok (es, st) ∧
        (st.pendingToolResults.length > 0 ∨ st.awaitingToolCallsCount > 0) := by
  cases hp : processAll h initState with
  | error e =>
    have he := processAll_error_uce h initState e hp
    subst he
    constructor
    · intro hcontra
      simp only [parseChatHistory, hp] at hcontra
      cases hcontra
    · rintro ⟨es, st, hok, _⟩
      cases hok
  | ok p =>
    obtain ⟨es₀, st₀⟩ := p
    simp only [parseChatHistory, hp]
    by_cases hd : st₀.pendingToolResults.length > 0 ∨
        st₀.awaitingToolCallsCount > 0
    · simp only [if_pos hd]
      constructor
      · intro _; exact ⟨es₀, st₀, rfl, hd⟩
      · intro _; trivial
    · simp only [if_neg hd]
      constructor
      · intro hcontra; cases hcontra
      · rintro ⟨es, st, hok, hdirty⟩
        cases hok
        exact absurd hdirty hd

/-! Claim C5: when translation fails with the unsupported-content error. -/

/-- C5 counterexample: an `ai` message whose content is neither plain text
nor a sequence of text parts does not make translation fail with the
unsupported-content error — the `ai` case never throws it; the message is
translated to an assistant entry with no payload. -/
theorem parse_ai_other_content_ok :
    parseChatHistory [⟨.ai, some .other, [], none, none⟩] =
      .ok [bareAssistantEntry] := by decide

/-- C5 (amended): translation fails with the unsupported-content error
exactly when the history contains a message with a content property that is
either a human or system message whose content is neither plain text nor a
sequence of text parts, or a tool message whose content is not plain text;
ai messages and unknown roles never raise it. -/
theorem parse_unsupported_iff (h : List Message) :
    parseChatHistory h = .error .unsupportedContent ↔
      ∃ m ∈ h, badContent m = true := by
  rw [← processAll_uce_iff h initState]
  cases hp : processAll h initState with
  | error e =>
    have he := processAll_error_uce h initState e hp
    subst he
    simp [parseChatHistory, hp]
  | ok p =>
    obtain ⟨es, st⟩ := p
    simp only [parseChatHistory, hp]
    constructor
    · intro hcontra
      split at hcontra <;> cases hcontra
    · intro hcontra; cases hcontra

/-! Claim C1: a clean tool-call window translates to one call entry and one
result entry. -/

/-- What the loop body does on a tool message with string content: push the
result into the buffer and flush exactly when the buffer now matches a
positive awaited count. -/
theorem processMessage_tool (t : Message) (r : Option String × String)
    (h : toolShape t r) (acc : List PendingResult) (k : Nat) :
    processMessage t ⟨acc, k⟩ =
      if 0 < k ∧ acc.length + 1 = k then
        .ok ([resultListEntry (acc ++ [⟨r.1, r.2⟩])], ⟨[], 0⟩)
      else
        .ok ([], ⟨acc ++ [⟨r.1, r.2⟩], k⟩) := by
  obtain ⟨hrole, hcontent, hname⟩ := h
  simp [processMessage, hcontent, hrole, hname]

/-- Running the pass over a non-empty block of string-content tool messages
that exactly completes the awaited count flushes a single result-list entry
carrying the buffered results in arrival order and resets the state. -/
theorem processAll_tool_block (ts : List Message) :
    ∀ (rs : List (Option String × String)) (acc : List PendingResult)
      (k : Nat), List.Forall₂ toolShape ts rs → ts ≠ [] →
      acc.length + ts.length = k →
      processAll ts ⟨acc, k⟩ =
        .ok ([resultListEntry
          (acc ++ rs.map (fun r => ⟨r.1, r.2⟩))], ⟨[], 0⟩) := by
  induction ts with
  | nil => intro rs acc k hrel hne hk; exact absurd rfl hne
  | cons t ts' ih =>
    intro rs acc k hrel hne hk
    cases rs with
    | nil => cases hrel
    | cons r rs' =>
      cases hrel with
      | cons h1 hrel' =>
        rw [processAll_cons, processMessage_tool t r h1 acc k]
        cases ts' with
        | nil =>
          cases hrel'
          have hk' : acc.length + 1 = k := by simpa using hk
          rw [if_pos (⟨by omega, hk'⟩ : 0 < k ∧ acc.length + 1 = k)]
          simp [processAll_nil]
        | cons t₂ ts'' =>
          have hlt : acc.length + 1 < k := by
            simp at hk
            omega
          rw [if_neg (by omega : ¬ (0 < k ∧ acc.length + 1 = k))]
          simp [ih rs' (acc ++ [⟨r.1, r.2⟩]) k hrel' (by simp)
            (by simp at hk ⊢; omega)]

/-- C1 counterexample: this history contains an ai message with exactly one
tool call followed immediately by exactly one tool message (the last two
messages), yet translation emits no result-list entry at all: the leftover
pending result of the earlier unfinished window blocks the flush condition
and the pass ends with the correlation error instead. -/
theorem parse_dirty_window_fails :
    parseChatHistory [mkAI "" [⟨"a", "x"⟩, ⟨"b", "y"⟩], mkTool "t1" "r1",
      mkAI "" [⟨"c", "z"⟩], mkTool "t2" "r2"] =
    .error .correlationMismatch := by decide

/-- C1 (amended): whenever an ai message with k > 0 tool calls is processed
with clean correlation state (which holds in particular when everything
before it translated back to the clean state) and is followed immediately
by exactly k string-content tool messages, the pass emits exactly one
assistant entry holding the k calls in message order followed by exactly
one assistant entry holding the k results in arrival order, and the
correlation state is clean again afterwards, so the rest of the history is
processed from the clean state. -/
theorem parse_clean_window (pre post : List Message) (m : Message)
    (ts : List Message) (rs : List (Option String × String))
    (es₀ : List WireEntry)
    (hpre : processAll pre initState = .ok (es₀, initState))
    (hrole : m.role = .ai) (hc : ∃ c, m.content = some c)
    (hrel : List.Forall₂ toolShape ts rs)
    (hlen : rs.length = m.tool_calls.length)
    (hne : m.tool_calls ≠ []) :
    processAll (pre ++ m :: (ts ++ post)) initState =
      match processAll post initState with
      | .error e => .error e
      | .ok (es₁, st) =>
        .ok (es₀ ++ callListEntry m.tool_calls ::
          resultListEntry (rs.map (fun r => ⟨r.1, r.2⟩)) :: es₁, st) := by
  obtain ⟨c, hcontent⟩ := hc
  have hts_len : ts.length = m.tool_calls.length := by
    rw [List.Forall₂.length_eq hrel, hlen]
  have hts_ne : ts ≠ [] := by
    intro hnil
    rw [hnil] at hts_len
    exact hne (List.length_eq_zero.mp hts_len.symm)
  rw [processAll_append]
  simp only [hpre]
  rw [processAll_cons]
  cases hcalls : m.tool_calls with
  | nil => exact absurd hcalls hne
  | cons t' tcs' =>
    simp only [processMessage, hcontent, hrole, hcalls, initState]
    rw [processAll_append]
    rw [processAll_tool_block ts rs [] (t' :: tcs').length hrel hts_ne
      (by simp [hts_len, hcalls])]
    cases hpost : processAll post initState with
    | error e => simp [initState] at hpost ⊢; simp [hpost]
    | ok p =>
      obtain ⟨es₁, st₁⟩ := p
      simp [initState] at hpost ⊢
      simp [hpost]

/-- C1 witness: the clean-window theorem applied to a concrete one-call
window with empty surrounding history. -/
theorem parse_clean_window_witness :
    processAll ([] ++ mkAI "" [⟨"get_weather", "Moscow"⟩] ::
        ([mkTool "get_weather" "Sunny"] ++ [])) initState =
      .ok ([callListEntry [⟨"get_weather", "Moscow"⟩],
        resultListEntry [⟨some "get_weather", "Sunny"⟩]], initState) := by
  have h := parse_clean_window [] [] (mkAI "" [⟨"get_weather", "Moscow"⟩])
    [mkTool "get_weather" "Sunny"] [(some "get_weather", "Sunny")] []
    rfl rfl ⟨.str "", rfl⟩
    (List.Forall₂.cons ⟨rfl, rfl, rfl⟩ List.Forall₂.nil) rfl (by decide)
  simpa [initState] using h

/-! Claim C2: an ai message with tool calls arriving over an unsatisfied
window. -/

/-- C2 counterexample: an ai message with two tool calls arrives while the
prior two-call window is still unsatisfied (only one result collected), yet
translation raises no error at that message nor anywhere else: the new
count overwrites the old one, the kept pending result is mixed into the
second window's flush, and the whole history translates successfully. -/
theorem parse_overlapping_windows_succeed :
    parseChatHistory [mkAI "" [⟨"a", "x"⟩, ⟨"b", "y"⟩], mkTool "t1" "r1",
      mkAI "" [⟨"c", "z"⟩, ⟨"d", "w"⟩], mkTool "t2" "r2"] =
    .ok [callListEntry [⟨"a", "x"⟩, ⟨"b", "y"⟩],
      callListEntry [⟨"c", "z"⟩, ⟨"d", "w"⟩],
      resultListEntry [⟨some "t1", "r1"⟩, ⟨some "t2", "r2"⟩]] := by decide

/-- C2 (amended): when an ai message carrying tool calls is processed, no
error is raised at that message whatever the correlation state: the loop
body emits the tool-call entry, overwrites the awaited count with the new
number of calls, and keeps the already collected pending results;
mismatches can only surface later, at a flush or at the end-of-pass
check. -/
theorem ai_toolcalls_overwrites_window (m : Message) (st : TransState)
    (hrole : m.role = .ai) (hc : ∃ c, m.content = some c)
    (hne : m.tool_calls ≠ []) :
    processMessage m st = .ok ([callListEntry m.tool_calls],
      ⟨st.pendingToolResults, m.tool_calls.length⟩) := by
  obtain ⟨c, hcontent⟩ := hc
  cases hcalls : m.tool_calls with
  | nil => exact absurd hcalls hne
  | cons t' tcs' => simp [processMessage, hcontent, hrole, hcalls]

/-- C2 witness: the overwrite theorem applied to a concrete ai message
arriving in a dirty state (one buffered result, two calls still awaited). -/
theorem ai_toolcalls_overwrites_window_witness :
    processMessage (mkAI "" [⟨"c", "z"⟩]) ⟨[⟨some "t1", "r1"⟩], 2⟩ =
      .ok ([callListEntry [⟨"c", "z"⟩]], ⟨[⟨some "t1", "r1"⟩], 1⟩) := by
  have h := ai_toolcalls_overwrites_window (mkAI "" [⟨"c", "z"⟩])
    ⟨[⟨some "t1", "r1"⟩], 2⟩ rfl ⟨.str "", rfl⟩ (by decide)
  simpa using h

/-! Claim C4: fan-out of human and system messages. -/

/-- C4: a human or system message whose content is a sequence of m text
parts contributes exactly m wire entries with the corresponding wire role
(user for human, system for system) and the parts' texts in the parts'
order, and plain string content contributes exactly one such entry; the
correlation state is untouched either way. -/
theorem human_system_fanout (m : Message) (st : TransState) (wr : WireRole)
    (hmap : (m.role = .human ∧ wr = .user) ∨
      (m.role = .system ∧ wr = .system)) :
    (∀ ps, m.content = some (.parts ps) →
      processMessage m st = .ok (ps.map (textEntry wr), st)) ∧
    (∀ s, m.content = some (.str s) →
      processMessage m st = .ok ([textEntry wr s], st)) := by
  rcases hmap with ⟨hrole, hwr⟩ | ⟨hrole, hwr⟩ <;> subst hwr <;>
    exact ⟨fun ps hc => by simp [processMessage, hc, hrole],
      fun s hc => by simp [processMessage, hc, hrole]⟩

/-- C4 witness: the fan-out theorem applied to a concrete two-part human
message. -/
theorem human_system_fanout_witness :
    processMessage (⟨.human, some (.parts ["first", "second"]), [], none,
        none⟩ : Message) initState =
      .ok ([textEntry .user "first", textEntry .user "second"],
        initState) := by
  have h := (human_system_fanout
    ⟨.human, some (.parts ["first", "second"]), [], none, none⟩ initState
    .user (Or.inl ⟨rfl, rfl⟩)).1 ["first", "second"] rfl
  simpa using h

/-! Claim C6: payload variants carried by produced wire entries. -/

/-- Every entry a single loop-body step emits carries at most one payload
variant, and a payload-free entry can only be the bare assistant entry. -/
theorem processMessage_payload (m : Message) (st : TransState)
    (es : List WireEntry) (st' : TransState)
    (h : processMessage m st = .ok (es, st')) :
    ∀ e ∈ es, payloadCount e ≤ 1 ∧
      (payloadCount e = 0 → e = bareAssistantEntry) := by
  obtain ⟨role, content, tcs, kw, nm⟩ := m
  cases content with
  | none =>
    cases h
    intro e he
    cases he
  | some c =>
    cases role with
    | human =>
      cases c with
      | str s =>
        cases h
        intro e he
        simp at he
        subst he
        exact ⟨by simp [payloadCount, textEntry],
          by simp [payloadCount, textEntry]⟩
      | parts ps =>
        cases h
        intro e he
        obtain ⟨p, -, hpe⟩ := List.mem_map.mp he
        subst hpe
        exact ⟨by simp [payloadCount, textEntry],
          by simp [payloadCount, textEntry]⟩
      | other => cases h
    | tool =>
      cases c with
      | str s =>
        simp only [processMessage] at h
        split at h
        · cases h
          intro e he
          simp at he
          subst he
          exact ⟨by simp [payloadCount, resultListEntry],
            by simp [payloadCount, resultListEntry]⟩
        · cases h
          intro e he
          cases he
      | parts ps => cases h
      | other => cases h
    | ai =>
      cases tcs with
      | cons t' tcs' =>
        cases h
        intro e he
        simp at he
        subst he
        exact ⟨by simp [payloadCount, callListEntry],
          by simp [payloadCount, callListEntry]⟩
      | nil =>
        cases c with
        | str s =>
          cases h
          intro e he
          simp at he
          subst he
          exact ⟨by simp [payloadCount, textEntry],
            by simp [payloadCount, textEntry]⟩
        | parts ps =>
          cases h
          intro e he
          simp at he
          subst he
          exact ⟨by simp [payloadCount, bareAssistantEntry], fun _ => rfl⟩
        | other =>
          cases h
          intro e he
          simp at he
          subst he
          exact ⟨by simp [payloadCount, bareAssistantEntry], fun _ => rfl⟩
    | system =>
      cases c with
      | str s =>
        cases h
        intro e he
        simp at he
        subst he
        exact ⟨by simp [payloadCount, textEntry],
          by simp [payloadCount, textEntry]⟩
      | parts ps =>
        cases h
        intro e he
        obtain ⟨p, -, hpe⟩ := List.mem_map.mp he
        subst hpe
        exact ⟨by simp [payloadCount, textEntry],
          by simp [payloadCount, textEntry]⟩
      | other => cases h
    | unknownRole tag =>
      cases h
      intro e he
      cases he

/-- Every entry emitted over a whole pass satisfies the same payload
bound. -/
theorem processAll_payload (h : List Message) :
    ∀ (st : TransState) (es : List WireEntry) (st' : TransState),
      processAll h st = .ok (es, st') →
      ∀ e ∈ es, payloadCount e ≤ 1 ∧
        (payloadCount e = 0 → e = bareAssistantEntry) := by
  induction h with
  | nil =>
    intro st es st' hp e he
    cases hp
    cases he
  | cons m rest ih =>
    intro st es st' hp e he
    rw [processAll_cons] at hp
    cases hm : processMessage m st with
    | error e₁ =>
      simp only [hm] at hp
      cases hp
    | ok p =>
      obtain ⟨es₁, st₁⟩ := p
      simp only [hm] at hp
      cases hr : processAll rest st₁ with
      | error e₁ =>
        simp only [hr] at hp
        cases hp
      | ok q =>
        obtain ⟨es₂, st₂⟩ := q
        simp only [hr] at hp
        have hes : es = es₁ ++ es₂ := by cases hp; rfl
        rw [hes] at he
        rcases List.mem_append.mp he with h₁ | h₂
        · exact processMessage_payload m st es₁ st₁ hm e h₁
        · exact ih st₁ es₂ st₂ hr e h₂

/-- C6 counterexample: an ai message whose content is an array of parts and
which carries no tool calls translates to an assistant entry carrying no
payload variant at all, contradicting the claim that every produced entry
carries exactly one. -/
theorem parse_payload_free_entry :
    parseChatHistory [⟨.ai, some (.parts ["x"]), [], none, none⟩] =
        .ok [bareAssistantEntry] ∧
      payloadCount bareAssistantEntry = 0 := by decide

/-- C6 (amended): every wire entry translation produces carries at most one
payload variant (never a mix), and the only payload-free entry it can
produce is the bare assistant entry emitted for an ai message with neither
tool calls nor string content. -/
theorem parse_payload_at_most_one (h : List Message) (es : List WireEntry)
    (hok : parseChatHistory h = .ok es) :
    ∀ e ∈ es, payloadCount e ≤ 1 ∧
      (payloadCount e = 0 → e = bareAssistantEntry) := by
  cases hp : processAll h initState with
  | error e₁ =>
    simp only [parseChatHistory, hp] at hok
    cases hok
  | ok p =>
    obtain ⟨es₁, st₁⟩ := p
    simp only [parseChatHistory, hp] at hok
    split at hok
    · cases hok
    · have hes : es = es₁ := by cases hok; rfl
      subst hes
      exact processAll_payload h initState _ _ hp

/-- C6 witness: the payload bound applied to the translation of a concrete
one-message history producing the bare assistant entry. -/
theorem parse_payload_at_most_one_witness :
    payloadCount bareAssistantEntry ≤ 1 ∧
      (payloadCount bareAssistantEntry = 0 →
        bareAssistantEntry = bareAssistantEntry) :=
  parse_payload_at_most_one [⟨.ai, some (.parts ["y"]), [], none, none⟩]
    [bareAssistantEntry] rfl bareAssistantEntry (by simp)

/-! Claim C10: messages without a content property are skipped. -/

/-- C10: a message object without a content property is skipped entirely:
translating any history containing it gives the same result as translating
the history with it removed — it emits no wire entry and leaves the
correlation state unchanged — even when it is an ai message carrying tool
calls, so such a message never opens a correlation window. -/
theorem parse_no_content_skipped (m : Message) (hm : m.content = none)
    (h₁ h₂ : List Message) :
    parseChatHistory (h₁ ++ m :: h₂) = parseChatHistory (h₁ ++ h₂) := by
  have hstep : ∀ st, processAll (m :: h₂) st = processAll h₂ st := by
    intro st
    rw [processAll_cons]
    simp only [processMessage, hm]
    cases hr : processAll h₂ st with
    | error e => simp
    | ok p => obtain ⟨es, st'⟩ := p; simp
  have hall : processAll (h₁ ++ m :: h₂) initState =
      processAll (h₁ ++ h₂) initState := by
    rw [processAll_append, processAll_append]
    cases hp : processAll h₁ initState with
    | error e => rfl
    | ok p =>
      obtain ⟨es, st'⟩ := p
      simp only [hstep st']
  unfold parseChatHistory
  rw [hall]

/-- C10 witness: the skip theorem applied to a concrete content-free ai
message carrying a tool call, inserted before a human message. -/
theorem parse_no_content_skipped_witness :
    parseChatHistory [(⟨.ai, none, [⟨"f", "a"⟩], none, none⟩ : Message),
        mkHuman "hello"] =
      parseChatHistory [mkHuman "hello"] :=
  parse_no_content_skipped ⟨.ai, none, [⟨"f", "a"⟩], none, none⟩ rfl []
    [mkHuman "hello"]

/-! Claim C7: the poller's rescheduling on persistently failing checks. -/

/-- C7: on a status endpoint that persistently answers with a failing HTTP
status whose JSON body has no truthy done flag, `checkStatus` never
surfaces any failure and performs one recursive invocation per interval:
after n intervals the rescheduling chain is n invocations deep and still
polling, for every n. This matches the source's own comment that failed
requests cause unbounded recursion, and contradicts the claim's
bounded-resource requirement. -/
theorem checkStatus_unbounded_rescheduling (n : Nat) :
    checkStatusRun (List.replicate n
        (.response ⟨false, 500, "Internal Server Error", ⟨false, ""⟩⟩)) =
      .stillPolling ∧
    checkStatusCalls (List.replicate n
        (.response ⟨false, 500, "Internal Server Error", ⟨false, ""⟩⟩)) =
      n := by
  induction n with
  | zero => exact ⟨rfl, rfl⟩
  | succ k ih =>
    rw [List.replicate_succ]
    constructor
    · simpa [checkStatusRun] using ih.1
    · simp [checkStatusCalls, ih.2, Nat.add_comm]

/-! Claim C8: HTTP-status handling of the two calls. -/

/-- C8 counterexample: on a response with a non-success HTTP status (500)
whose JSON body reports done, the status check resolves successfully with
that body instead of rejecting: `checkStatus` never inspects the HTTP
status, so the claim fails for the status-check call. -/
theorem checkStatus_nonsuccess_resolves :
    checkStatusRun [.response ⟨false, 500, "Internal Server Error",
      ⟨true, "result"⟩⟩] = .resolved ⟨true, "result"⟩ := by decide

/-- C8 (amended): the completion and async-completion calls reject on every
non-success HTTP status, carrying the status code and the status text; the
status-check call, by contrast, never inspects the HTTP status — its
decision on a failing response is identical to its decision on a successful
response carrying the same parsed body. -/
theorem http_status_handling (resp : HttpResponse)
    (hnok : resp.ok = false) :
    completion resp = .error (.httpError resp.status resp.statusText) ∧
    asyncCompletion resp = .error (.httpError resp.status resp.statusText) ∧
    checkStatusStep resp = checkStatusStep ⟨true, 200, "OK", resp.json⟩ := by
  refine ⟨?_, ?_, ?_⟩ <;>
    simp [completion, asyncCompletion, hnok, checkStatusStep]

/-- C8 witness: the HTTP-status theorem applied to a concrete 404
response. -/
theorem http_status_handling_witness :
    completion ⟨false, 404, "Not Found", ⟨false, ""⟩⟩ =
        .error (.httpError 404 "Not Found") ∧
      asyncCompletion ⟨false, 404, "Not Found", ⟨false, ""⟩⟩ =
        .error (.httpError 404 "Not Found") ∧
      checkStatusStep ⟨false, 404, "Not Found", ⟨false, ""⟩⟩ =
        checkStatusStep ⟨true, 200, "OK", ⟨false, ""⟩⟩ :=
  http_status_handling ⟨false, 404, "Not Found", ⟨false, ""⟩⟩ rfl

/-! Claim C9: the derived finish reason. -/

/-- C9 counterexample: for this translated history the wire messages do
contain a flushed tool-result entry, but the derived finish reason is the
literal string "tool_calls", not "tool-calls", so the biconditional as
stated fails at this input. -/
theorem finish_reason_literal :
    parseChatHistory [mkAI "" [⟨"f", "x"⟩], mkTool "f" "r"] =
        .ok [callListEntry [⟨"f", "x"⟩], resultListEntry [⟨some "f", "r"⟩]] ∧
      (([callListEntry [⟨"f", "x"⟩], resultListEntry [⟨some "f", "r"⟩]] :
          List WireEntry).any (fun m => m.toolResultList.isSome) = true) ∧
      finishReason [callListEntry [⟨"f", "x"⟩],
        resultListEntry [⟨some "f", "r"⟩]] ≠ some "tool-calls" := by decide

/-- C9 (amended): for any translated history, the derived finish reason is
the string "tool_calls" exactly when some translated entry carries a
tool-result-list payload; it is computed from the translated messages
alone, so it is independent of the returned alternative's status. -/
theorem finish_reason_iff (h : List Message) (msgs : List WireEntry)
    (_hok : parseChatHistory h = .ok msgs) :
    finishReason msgs = some "tool_calls" ↔
      ∃ m ∈ msgs, m.toolResultList.isSome = true := by
  unfold finishReason
  cases hf : msgs.find? (fun m => m.toolResultList.isSome) with
  | some e =>
    constructor
    · intro _
      refine ⟨e, List.mem_of_find?_eq_some hf, ?_⟩
      have hp := List.find?_some hf
      simpa using hp
    · intro _; rfl
  | none =>
    constructor
    · intro hcontra; cases hcontra
    · rintro ⟨m, hmem, hres⟩
      exact absurd hres (List.find?_eq_none.mp hf m hmem)

/-- C9 witness: the finish-reason characterization applied to a concrete
translated history containing one flushed tool-result entry. -/
theorem finish_reason_iff_witness :
    finishReason [callListEntry [⟨"g", "x"⟩],
        resultListEntry [⟨some "g", "r"⟩]] = some "tool_calls" ↔
      ∃ m ∈ [callListEntry [⟨"g", "x"⟩],
        resultListEntry [⟨some "g", "r"⟩]], m.toolResultList.isSome = true :=
  finish_reason_iff [mkAI "" [⟨"g", "x"⟩], mkTool "g" "r"]
    [callListEntry [⟨"g", "x"⟩], resultListEntry [⟨some "g", "r"⟩]] rfl

end YandexGPT
